import Mathlib

/- Verification development for the fishbone-diagram component.
   The data/mutation layer is embedded from the component script
   (functions setData, getData, deleteBone, addBigBone, addMidBone,
   addSmallBone); the layout engine is embedded from the layout module
   (calculateLayout and its helpers), with JavaScript numbers modelled
   as real numbers. -/

namespace Fishbone

/- ──────────────────────────────────────────────────────────────
   Data model: fishData.bigBones, three-level tree big → mid → small.
   Ids are modelled by the numeric part of the generated id string. -/

inductive Pos where
  | top
  | bottom
  deriving DecidableEq

structure SmallBone where
  id : Nat
  label : String
  deriving DecidableEq

structure MidBone where
  id : Nat
  label : String
  smallBones : List SmallBone
  deriving DecidableEq

structure BigBone where
  id : Nat
  label : String
  position : Pos
  midBones : List MidBone
  deriving DecidableEq

structure FishData where
  bigBones : List BigBone
  deriving DecidableEq

/- Component state surrounding the tree: the id sequence counter, the
   head label and the presentation state that setData must not touch. -/

structure ComponentState where
  idSeq : Nat
  bigBones : List BigBone
  headLabel : String
  mode : String
  panX : Rat
  panY : Rat
  scale : Rat
  loading : Bool
  headHovering : Bool
  deriving DecidableEq

/- position reassignment after a big-bone deletion:
   fishData.bigBones.forEach((b, i) => b.position = i % 2 === 0 ? top : bottom) -/

def parityPos (i : Nat) : Pos := if i % 2 = 0 then Pos.top else Pos.bottom

def reassignAux : Nat → List BigBone → List BigBone
  | _, [] => []
  | i, b :: rest => { b with position := parityPos i } :: reassignAux (i + 1) rest

def reassignPositions (l : List BigBone) : List BigBone := reassignAux 0 l

/- modifyFirst p f replaces the first element satisfying p by its image
   under f; it models the in-place mutation of the bone that
   Array.prototype.find returns. -/

def modifyFirst (p : α → Bool) (f : α → α) : List α → List α
  | [] => []
  | x :: xs => if p x then f x :: xs else x :: modifyFirst p f xs

/- delete path descriptor { type, bigId, midId, smId } -/

inductive DelInfo where
  | big (bigId : Nat)
  | mid (bigId midId : Nat)
  | small (bigId midId smId : Nat)
  deriving DecidableEq

/- deleteBone: findIndex + splice is List.eraseP on the id predicate;
   after a big-bone deletion positions are reassigned unconditionally. -/

def deleteBone (st : ComponentState) (d : DelInfo) : ComponentState :=
  match d with
  | .big bigId =>
      { st with bigBones :=
          reassignPositions (st.bigBones.eraseP (fun b => b.id == bigId)) }
  | .mid bigId midId =>
      { st with
          bigBones :=
            modifyFirst (fun b => b.id == bigId)
              (fun b => { b with midBones := b.midBones.eraseP (fun m => m.id == midId) })
              st.bigBones }
  | .small bigId midId smId =>
      { st with
          bigBones :=
            modifyFirst (fun b => b.id == bigId)
              (fun b =>
                { b with
                    midBones :=
                      modifyFirst (fun m => m.id == midId)
                        (fun m => { m with smallBones := m.smallBones.eraseP (fun s => s.id == smId) })
                        b.midBones })
              st.bigBones }

/- addBigBone pushes at the end of the root list; addMidBone unshifts at
   the front of the found big bone; addSmallBone pushes at the end of the
   found mid bone.  The new id is genId() = idSeq + 1. -/

def addBigBone (st : ComponentState) : ComponentState :=
  let n := st.bigBones.length
  { st with
      idSeq := st.idSeq + 1,
      bigBones := st.bigBones ++
        [{ id := st.idSeq + 1, label := "大骨 " ++ toString (n + 1),
           position := parityPos n, midBones := [] }] }

def addMidBone (st : ComponentState) (bigId : Nat) : ComponentState :=
  match st.bigBones.find? (fun b => b.id == bigId) with
  | none => st
  | some _ =>
      { st with
          idSeq := st.idSeq + 1,
          bigBones :=
            modifyFirst (fun b => b.id == bigId)
              (fun b =>
                { b with
                    midBones :=
                      { id := st.idSeq + 1,
                        label := "中骨 " ++ toString (b.midBones.length + 1),
                        smallBones := [] } :: b.midBones })
              st.bigBones }

def addSmallBone (st : ComponentState) (bigId midId : Nat) : ComponentState :=
  match st.bigBones.find? (fun b => b.id == bigId) with
  | none => st
  | some b =>
      match b.midBones.find? (fun m => m.id == midId) with
      | none => st
      | some _ =>
          { st with
              idSeq := st.idSeq + 1,
              bigBones :=
                modifyFirst (fun b2 => b2.id == bigId)
                  (fun b2 =>
                    { b2 with
                        midBones :=
                          modifyFirst (fun m => m.id == midId)
                            (fun m =>
                              { m with
                                  smallBones :=
                                    m.smallBones ++
                                      [{ id := st.idSeq + 1,
                                         label := "小骨 " ++ toString (m.smallBones.length + 1) }] })
                            b2.midBones })
                  st.bigBones }

/- ──────────────────────────────────────────────────────────────
   External data shape { headLabel, bigBones: [{ label, midBones: [...] }] }.
   Absent fields are Option.none; a missing array fails Array.isArray. -/

structure ExtSmall where
  label : String
  deriving DecidableEq

structure ExtMid where
  label : String
  smallBones : Option (List ExtSmall)
  deriving DecidableEq

structure ExtBig where
  label : String
  midBones : Option (List ExtMid)
  deriving DecidableEq

structure ExtData where
  headLabel : Option String
  bigBones : Option (List ExtBig)
  deriving DecidableEq

/- setData builders: ids are generated in depth-first creation order
   (big, then its mids, each mid followed by its smalls), empty labels
   fall back to the indexed default label, positions alternate by index. -/

def buildSmalls : Nat → Nat → List ExtSmall → Nat × List SmallBone
  | seq, _, [] => (seq, [])
  | seq, k, s :: rest =>
      let id := seq + 1
      let lbl := if s.label = "" then "小骨 " ++ toString (k + 1) else s.label
      let r := buildSmalls id (k + 1) rest
      (r.1, { id := id, label := lbl } :: r.2)

def buildMids : Nat → Nat → List ExtMid → Nat × List MidBone
  | seq, _, [] => (seq, [])
  | seq, j, m :: rest =>
      let id := seq + 1
      let lbl := if m.label = "" then "中骨 " ++ toString (j + 1) else m.label
      let sms := match m.smallBones with
        | none => (id, [])
        | some l => buildSmalls id 0 l
      let r := buildMids sms.1 (j + 1) rest
      (r.1, { id := id, label := lbl, smallBones := sms.2 } :: r.2)

def buildBigs : Nat → Nat → List ExtBig → Nat × List BigBone
  | seq, _, [] => (seq, [])
  | seq, i, b :: rest =>
      let id := seq + 1
      let lbl := if b.label = "" then "大骨 " ++ toString (i + 1) else b.label
      let mds := match b.midBones with
        | none => (id, [])
        | some l => buildMids id 0 l
      let r := buildBigs mds.1 (i + 1) rest
      (r.1, { id := id, label := lbl, position := parityPos i, midBones := mds.2 } :: r.2)

/- setData: idSeq is reset to 0 and then advanced by each generated id;
   the head label is only overwritten by a truthy headLabel field. -/

def setData (st : ComponentState) (d : ExtData) : ComponentState :=
  let built : Nat × List BigBone :=
    match d.bigBones with
    | none => (0, [])
    | some l => buildBigs 0 0 l
  { st with
      idSeq := built.1,
      bigBones := built.2,
      headLabel :=
        match d.headLabel with
        | none => st.headLabel
        | some s => if s = "" then st.headLabel else s }

def extOfSmall (s : SmallBone) : ExtSmall := { label := s.label }

def extOfMid (m : MidBone) : ExtMid :=
  { label := m.label, smallBones := some (m.smallBones.map extOfSmall) }

def extOfBig (b : BigBone) : ExtBig :=
  { label := b.label, midBones := some (b.midBones.map extOfMid) }

def getData (st : ComponentState) : ExtData :=
  { headLabel := some st.headLabel, bigBones := some (st.bigBones.map extOfBig) }

/- ──────────────────────────────────────────────────────────────
   Layout engine (layout module, function calculateLayout).
   JavaScript numbers are modelled as real numbers; Math.SQRT2 is the
   real square root of two and Math.ceil is the integer ceiling. -/

noncomputable section

def sqrt2 : ℝ := Real.sqrt 2

def LINE_CHARS : Nat := 10
def BIG_GAP : ℝ := 100
def DIAG : ℝ := 150
def MID_LEN : ℝ := 90
def PAIR_GAP : ℝ := 60
def PAD_L : ℝ := 30
def TAIL : ℝ := 50
def CY : ℝ := 350
def EMPTY_MAIN_LEN : ℝ := 100
def SM_BOX_MIN_W : ℝ := 60
def SM_BOX_H : ℝ := 24
def SM_GAP_Y : ℝ := 8
def MID_BOX_MIN_W : ℝ := 80
def MID_BOX_H : ℝ := 24
def BIG_BOX_MIN_W : ℝ := 100
def BIG_BOX_H : ℝ := 32
def SM_LINK_LEN : ℝ := 40
def GROUP_GAP : ℝ := 30
def HEAD_TO_FIRST_BONE : ℝ := 0
def TAIL_GAP : ℝ := 150

/- smBoxH: a label longer than LINE_CHARS wraps onto a second line. -/

def smBoxH (sm : SmallBone) : ℝ :=
  if sm.label.length > LINE_CHARS then SM_BOX_H * 1.8 else SM_BOX_H

/- totalSmallBonesH: the loop adds SM_GAP_Y before every item except the
   first, then the item height; zero when there are no small bones. -/

def totalSmallBonesH (m : MidBone) : ℝ :=
  match m.smallBones with
  | [] => 0
  | s :: rest => smBoxH s + (rest.map (fun x => SM_GAP_Y + smBoxH x)).sum

def midBoneSpan (m : MidBone) : ℝ :=
  ((⌈(max (MID_BOX_H + 20) (totalSmallBonesH m + MID_BOX_H)) * sqrt2⌉ : ℤ) : ℝ)

def calcHeadMargin (b : BigBone) : ℝ :=
  if b.midBones = [] then 80 else max 80 (BIG_BOX_H + 40)

/- calcDiag: the loop total = headMargin; total += span for each mid;
   total += 50 is headMargin + sum of spans + 50. -/

def calcDiag (b : BigBone) : ℝ :=
  if b.midBones = [] then DIAG
  else max DIAG (calcHeadMargin b + (b.midBones.map midBoneSpan).sum + 50)

def calcDynamicMidLen (m : MidBone) : ℝ :=
  if totalSmallBonesH m = 0 then MID_LEN else MID_LEN + totalSmallBonesH m / 2

def calcBoxW (text : String) (minW : ℝ) (fs : ℝ) : ℝ :=
  max minW (((min text.length LINE_CHARS : Nat) : ℝ) * (fs * 1.1) + 24)

def smBoxW (sm : SmallBone) : ℝ := calcBoxW sm.label SM_BOX_MIN_W 18
def midBoxW (m : MidBone) : ℝ := calcBoxW m.label MID_BOX_MIN_W 20
def bigBoxW (b : BigBone) : ℝ := calcBoxW b.label BIG_BOX_MIN_W 24

def maxSmBoxW (m : MidBone) : ℝ :=
  if m.smallBones = [] then 0
  else m.smallBones.foldl (fun mx sm => max mx (smBoxW sm)) SM_BOX_MIN_W

/- boneLeftExtent: the loop state is the accumulated offset along the
   diagonal and the running maximum, started at dd + 80. -/

def boneLeftExtentAux (dd diag : ℝ) : ℝ → ℝ → List MidBone → ℝ
  | _, maxLeft, [] => maxLeft
  | accumOff, maxLeft, m :: rest =>
      let span := midBoneSpan m
      let centerOff := accumOff + span / 2
      let t := centerOff / diag
      let axOff := dd * t
      let leftFromBx := axOff + calcDynamicMidLen m + midBoxW m + 10 +
        (if m.smallBones = [] then 0 else SM_LINK_LEN + maxSmBoxW m + 10)
      boneLeftExtentAux dd diag (accumOff + span) (max maxLeft leftFromBx) rest

def boneLeftExtent (b : BigBone) : ℝ :=
  boneLeftExtentAux (calcDiag b / sqrt2) (calcDiag b) (calcHeadMargin b)
    (calcDiag b / sqrt2 + 80) b.midBones

def boneW (b : BigBone) : ℝ := max BIG_GAP (boneLeftExtent b + 40)

/- Grouping: big bones two at a time in creation order; an odd tail
   leaves the second member empty. -/

abbrev Group := BigBone × Option BigBone

def mkGroups : List BigBone → List Group
  | [] => []
  | [a] => [(a, none)]
  | a :: b :: rest => (a, some b) :: mkGroups rest

def groupWidth (g : Group) : ℝ :=
  max (boneW g.1) (g.2.elim 0 boneW) + g.2.elim 0 (fun _ => PAIR_GAP)

/- groupExt is the recurring Math.max(topExt, botExt) where the bottom
   extent carries the PAIR_GAP shift of the bottom bone. -/

def groupExt (g : Group) : ℝ :=
  max (boneLeftExtent g.1) (g.2.elim 0 (fun b => boneLeftExtent b + PAIR_GAP))

def rightHalf (g : Group) : ℝ :=
  max (calcDiag g.1 / sqrt2) (g.2.elim 0 (fun b => calcDiag b / sqrt2)) * 0.2 + 20

/- placeGroups pairs each group with its leftward offset relative to the
   first group, following the cursor loop: the first group sits at offset
   zero and advances the cursor by its extent plus GROUP_GAP; every later
   group sits at cursor + rightHalf and advances the cursor likewise. -/

def relPlace : ℝ → List Group → List (Group × ℝ)
  | _, [] => []
  | cursor, g :: rest =>
      (g, cursor + rightHalf g) ::
        relPlace (cursor + rightHalf g + groupExt g + GROUP_GAP) rest

def placeGroups : List Group → List (Group × ℝ)
  | [] => []
  | g :: rest => (g, 0) :: relPlace (groupExt g + GROUP_GAP) rest

def tailSafeRight : ℝ := PAD_L + TAIL + 50

/- firstBoneX: for the first group the loop takes tailSafeRight +
   TAIL_GAP + max(topExt, botExt); since its relative offset is zero this
   coincides with the uniform tailSafeRight + TAIL_GAP + offset + extent
   term used for every later group, so the loop is one max-fold. -/

def anchorTerms (gs : List Group) : List ℝ :=
  (placeGroups gs).map (fun p => tailSafeRight + TAIL_GAP + p.2 + groupExt p.1)

def firstBoneX (gs : List Group) : ℝ :=
  (anchorTerms gs).foldl max tailSafeRight

def mainEnd (fd : FishData) : ℝ :=
  if fd.bigBones = [] then PAD_L + TAIL + EMPTY_MAIN_LEN
  else firstBoneX (mkGroups fd.bigBones) + HEAD_TO_FIRST_BONE

structure Slot where
  b : BigBone
  x : ℝ
  w : ℝ

/- slots: the top member anchors at firstBoneX - offset, the bottom
   member PAIR_GAP further toward the tail, both with the group width. -/

def slotsOfGroup (fx : ℝ) (p : Group × ℝ) : List Slot :=
  let topX := fx - p.2
  { b := p.1.1, x := topX, w := groupWidth p.1 } ::
    p.1.2.elim [] (fun bot => [{ b := bot, x := topX - PAIR_GAP, w := groupWidth p.1 }])

def slots (fd : FishData) : List Slot :=
  ((placeGroups (mkGroups fd.bigBones)).map
    (slotsOfGroup (firstBoneX (mkGroups fd.bigBones)))).flatten

/- Canvas-bounds scan: the loop lowers xMin with ex - 80 per slot and,
   per mid bone, with midBoxXCalc - 60, ax - 60 and, when it has small
   bones, midBoxXCalc - SM_LINK_LEN - maxSmBoxW - 20; we collect exactly
   those candidates and fold min from the initial PAD_L - 20. -/

def midXCands (bx dd diag : ℝ) : ℝ → List MidBone → List ℝ
  | _, [] => []
  | accumOff, m :: rest =>
      let span := midBoneSpan m
      let t := (accumOff + span / 2) / diag
      let ax := bx + ((bx - dd) - bx) * t
      let midBoxXCalc := (ax - calcDynamicMidLen m) - midBoxW m
      [midBoxXCalc - 60, ax - 60] ++
        (if m.smallBones = [] then []
         else [midBoxXCalc - SM_LINK_LEN - maxSmBoxW m - 20]) ++
        midXCands bx dd diag (accumOff + span) rest

def slotXCands (s : Slot) : List ℝ :=
  ((s.x - calcDiag s.b / sqrt2) - 80) ::
    midXCands s.x (calcDiag s.b / sqrt2) (calcDiag s.b) (calcHeadMargin s.b) s.b.midBones

def scannedXs (fd : FishData) : List ℝ := ((slots fd).map slotXCands).flatten

def xMinOf (fd : FishData) : ℝ := (scannedXs fd).foldl min (PAD_L - 20)

/- The y scan, analogously: ey - 80 per slot and, per mid bone, ay - 60
   and, when it has small bones, ay - totalSmallBonesH / 2 - 20. -/

def midYCands (dirv dd diag : ℝ) : ℝ → List MidBone → List ℝ
  | _, [] => []
  | accumOff, m :: rest =>
      let span := midBoneSpan m
      let t := (accumOff + span / 2) / diag
      let ay := CY + ((CY + dirv * dd) - CY) * t
      [ay - 60] ++
        (if m.smallBones = [] then [] else [ay - totalSmallBonesH m / 2 - 20]) ++
        midYCands dirv dd diag (accumOff + span) rest

def slotYCands (s : Slot) : List ℝ :=
  let dirv : ℝ := if s.b.position = Pos.top then -1 else 1
  ((CY + dirv * (calcDiag s.b / sqrt2)) - 80) ::
    midYCands dirv (calcDiag s.b / sqrt2) (calcDiag s.b) (calcHeadMargin s.b) s.b.midBones

def scannedYs (fd : FishData) : List ℝ := ((slots fd).map slotYCands).flatten

def yMinOf (fd : FishData) : ℝ := (scannedYs fd).foldl min CY

def shiftX (fd : FishData) : ℝ :=
  if xMinOf fd < tailSafeRight then tailSafeRight - xMinOf fd else 0

def shiftY (fd : FishData) : ℝ :=
  if yMinOf fd < 0 then -(yMinOf fd) + 40 else 0

/- ──────────────────────────────────────────────────────────────
   Specification-side definitions, written from the words of the
   specification, to be compared with the code-side definitions. -/

/- Spec: small-bone group height is the sum of the box heights plus one
   fixed gap between each pair of consecutive items, zero when empty. -/

def specSmallGroupH (m : MidBone) : ℝ :=
  if m.smallBones = [] then 0
  else (m.smallBones.map smBoxH).sum + ((m.smallBones.length - 1 : Nat) : ℝ) * SM_GAP_Y

/- Claim wording for the mid-bone span: max(midBoxHeight + margin,
   smallGroupHeight + midBoxHeight) multiplied by the square root of two
   (without the rounding the code performs). -/

def claimMidBoneSpanNoCeil (m : MidBone) : ℝ :=
  (max (MID_BOX_H + 20) (specSmallGroupH m + MID_BOX_H)) * sqrt2

/- Amended wording: the same product, rounded up to the next integer. -/

def specMidBoneSpan (m : MidBone) : ℝ :=
  ((⌈(max (MID_BOX_H + 20) (specSmallGroupH m + MID_BOX_H)) * sqrt2⌉ : ℤ) : ℝ)

def claimCalcDiagNoCeil (b : BigBone) : ℝ :=
  if b.midBones = [] then DIAG
  else max DIAG (calcHeadMargin b + (b.midBones.map claimMidBoneSpanNoCeil).sum + 50)

def specCalcDiag (b : BigBone) : ℝ :=
  if b.midBones = [] then DIAG
  else max DIAG (calcHeadMargin b + (b.midBones.map specMidBoneSpan).sum + 50)

/- Spec: dynamic mid-bone horizontal reach is the base length plus half
   the small-bone group height. -/

def specDynReach (m : MidBone) : ℝ := MID_LEN + totalSmallBonesH m / 2

/- Spec, claim C1 clause (b): per mid-bone, the horizontal projection of
   its center offset along the diagonal, plus its dynamic reach, plus its
   label-box width, plus (when it has small bones) the link length plus
   the widest small-bone box width, each with its small fixed margin. -/

def specMidLeftReach (m : MidBone) (centerOff : ℝ) : ℝ :=
  centerOff / sqrt2 + specDynReach m + midBoxW m + 10 +
    (if m.smallBones = [] then 0 else SM_LINK_LEN + maxSmBoxW m + 10)

/- The center offset of each mid bone is the head margin plus the spans
   of the preceding mid bones plus half its own span. -/

def specLeftList : ℝ → List MidBone → List ℝ
  | _, [] => []
  | acc, m :: rest =>
      specMidLeftReach m (acc + midBoneSpan m / 2) :: specLeftList (acc + midBoneSpan m) rest

def specLeftExtent (b : BigBone) : ℝ :=
  (specLeftList (calcHeadMargin b) b.midBones).foldl max (calcDiag b / sqrt2 + 80)

/- Two closed horizontal intervals meet when the larger lower end does
   not exceed the smaller upper end. -/

def intervalsHit (a1 b1 a2 b2 : ℝ) : Prop := max a1 a2 ≤ min b1 b2

/- The horizontal interval the no-overlap property ascribes to a slot:
   anchor minus left extent up to anchor plus the 40 right margin. -/

def slotLo (s : Slot) : ℝ := s.x - boneLeftExtent s.b
def slotHi (s : Slot) : ℝ := s.x + 40

end

/- ──────────────────────────────────────────────────────────────
   Auxiliary predicates for the mutation-layer claims. -/

def treeIdsNodup (l : List BigBone) : Prop :=
  (l.map (fun b => b.id)).Nodup ∧
    ∀ b ∈ l, (b.midBones.map (fun m => m.id)).Nodup ∧
      ∀ m ∈ b.midBones, (m.smallBones.map (fun s => s.id)).Nodup

instance : DecidablePred treeIdsNodup := fun _ => by
  unfold treeIdsNodup; infer_instance

def delResolves (st : ComponentState) (d : DelInfo) : Bool :=
  match d with
  | .big i => (st.bigBones.find? (fun b => b.id == i)).isSome
  | .mid i j =>
      match st.bigBones.find? (fun b => b.id == i) with
      | none => false
      | some b => (b.midBones.find? (fun m => m.id == j)).isSome
  | .small i j k =>
      match st.bigBones.find? (fun b => b.id == i) with
      | none => false
      | some b =>
          match b.midBones.find? (fun m => m.id == j) with
          | none => false
          | some m => (m.smallBones.find? (fun s => s.id == k)).isSome

def midParentResolves (st : ComponentState) (i : Nat) : Bool :=
  (st.bigBones.find? (fun b => b.id == i)).isSome

def smallParentResolves (st : ComponentState) (i j : Nat) : Bool :=
  match st.bigBones.find? (fun b => b.id == i) with
  | none => false
  | some b => (b.midBones.find? (fun m => m.id == j)).isSome

/- Nesting structure and label tree of the live data, the two features
   the export/import round trip is supposed to preserve. -/

def shape (l : List BigBone) : List (List Nat) :=
  l.map (fun b => b.midBones.map (fun m => m.smallBones.length))

def labelTree (l : List BigBone) : List (String × List (String × List String)) :=
  l.map (fun b =>
    (b.label, b.midBones.map (fun m => (m.label, m.smallBones.map (fun s => s.label)))))

def labelsNonempty (l : List BigBone) : Prop :=
  ∀ b ∈ l, b.label ≠ "" ∧
    ∀ m ∈ b.midBones, m.label ≠ "" ∧ ∀ s ∈ m.smallBones, s.label ≠ ""

instance : DecidablePred labelsNonempty := fun _ => by
  unfold labelsNonempty; infer_instance

/- Number of bones setData creates from an external record. -/

def extBoneCount (d : ExtData) : Nat :=
  match d.bigBones with
  | none => 0
  | some l =>
      (l.map (fun b => 1 +
        match b.midBones with
        | none => 0
        | some ms =>
            (ms.map (fun m => 1 +
              match m.smallBones with
              | none => 0
              | some ss => ss.length)).sum)).sum

/- ──────────────────────────────────────────────────────────────
   Concrete inputs used by counterexamples and witnesses. -/

def mkBig (i : Nat) (p : Pos) (ms : List MidBone) : BigBone :=
  { id := i, label := "A", position := p, midBones := ms }

def mPlain (i : Nat) : MidBone := { id := i, label := "A", smallBones := [] }

/- One big bone without mid bones. -/
def fdOne : FishData := { bigBones := [mkBig 1 Pos.top []] }

/- Two big bones with identical (empty) subtrees, one pair group. -/
def fdPair : FishData := { bigBones := [mkBig 1 Pos.top [], mkBig 2 Pos.bottom []] }

/- One big bone with one mid bone and no small bones. -/
def bOneMid : BigBone := mkBig 1 Pos.top [mPlain 2]

/- One big bone with four mid bones: tall enough that the top of its
   diagonal rises above the canvas top. -/
def bTall : BigBone := mkBig 1 Pos.top [mPlain 2, mPlain 3, mPlain 4, mPlain 5]

def fdTall : FishData := { bigBones := [bTall] }

def baseState : ComponentState :=
  { idSeq := 0, bigBones := [], headLabel := "问题详情", mode := "edit",
    panX := 0, panY := 0, scale := 1, loading := false, headHovering := false }

/- A state with one big bone carrying one mid bone. -/
def stOne : ComponentState :=
  { baseState with
      idSeq := 5,
      bigBones := [{ id := 1, label := "B", position := Pos.top,
                     midBones := [{ id := 3, label := "M", smallBones := [] }] }] }

/- A state whose single big bone has the empty label. -/
def stEmptyLabel : ComponentState :=
  { baseState with
      idSeq := 1,
      bigBones := [{ id := 1, label := "", position := Pos.top, midBones := [] }] }

/- External record with one big bone and no mid bones. -/
def dOneBig : ExtData :=
  { headLabel := none, bigBones := some [{ label := "人员", midBones := some [] }] }

/- The big and mid bone held by stOne, named for the C7 statements. -/

def bigOne : BigBone :=
  { id := 1, label := "B", position := Pos.top,
    midBones := [{ id := 3, label := "M", smallBones := [] }] }

def midOne : MidBone := { id := 3, label := "M", smallBones := [] }

/- External records exercising the headLabel branches of setData. -/

def dEmptyHead : ExtData := { headLabel := some "", bigBones := none }

def dNewHead : ExtData := { headLabel := some "X", bigBones := none }

/- ──────────────────────────────────────────────────────────────
   Generic helper lemmas. -/

theorem foldl_min_le_init {α : Type} [LinearOrder α] (l : List α) :
    ∀ init : α, l.foldl min init ≤ init := by
  induction l with
  | nil => intro init; exact le_rfl
  | cons x xs ih =>
      intro init
      calc (x :: xs).foldl min init = xs.foldl min (min init x) := rfl
        _ ≤ min init x := ih _
        _ ≤ init := min_le_left _ _

theorem foldl_min_le_mem {α : Type} [LinearOrder α] {c : α} {l : List α} (h : c ∈ l) :
    ∀ init : α, l.foldl min init ≤ c := by
  induction l with
  | nil => cases h
  | cons x xs ih =>
      intro init
      rcases List.mem_cons.mp h with hc | hc
      · subst hc
        calc (c :: xs).foldl min init = xs.foldl min (min init c) := rfl
          _ ≤ min init c := foldl_min_le_init _ _
          _ ≤ c := min_le_right _ _
      · exact ih hc _

theorem le_foldl_max_init {α : Type} [LinearOrder α] (l : List α) :
    ∀ init : α, init ≤ l.foldl max init := by
  induction l with
  | nil => intro init; exact le_rfl
  | cons x xs ih =>
      intro init
      calc init ≤ max init x := le_max_left _ _
        _ ≤ xs.foldl max (max init x) := ih _
        _ = (x :: xs).foldl max init := rfl

theorem le_foldl_max_mem {α : Type} [LinearOrder α] {c : α} {l : List α} (h : c ∈ l) :
    ∀ init : α, c ≤ l.foldl max init := by
  induction l with
  | nil => cases h
  | cons x xs ih =>
      intro init
      rcases List.mem_cons.mp h with hc | hc
      · subst hc
        calc c ≤ max init c := le_max_right _ _
          _ ≤ xs.foldl max (max init c) := le_foldl_max_init _ _
      · exact ih hc _

theorem foldl_max_mem_or_init {α : Type} [LinearOrder α] (l : List α) :
    ∀ init : α, l.foldl max init = init ∨ l.foldl max init ∈ l := by
  induction l with
  | nil => intro init; exact Or.inl rfl
  | cons x xs ih =>
      intro init
      have hc : (x :: xs).foldl max init = xs.foldl max (max init x) := rfl
      rcases ih (max init x) with h | h
      · rcases max_cases init x with ⟨he, _⟩ | ⟨he, _⟩
        · left; rw [hc, h, he]
        · right; rw [hc, h, he]; exact List.mem_cons_self x xs
      · right
        exact List.mem_cons_of_mem _ (by rw [hc]; exact h)

/- modifyFirst facts. -/

theorem modifyFirst_of_find?_none {α : Type} {p : α → Bool} (f : α → α) {l : List α}
    (h : l.find? p = none) : modifyFirst p f l = l := by
  induction l with
  | nil => rfl
  | cons x xs ih =>
      rw [List.find?_cons] at h
      by_cases hx : p x
      · simp [hx] at h
      · simp only [hx] at h
        simp [modifyFirst, hx, ih h]

theorem modifyFirst_fix {α : Type} {p : α → Bool} (f : α → α) {l : List α} {x : α}
    (h : l.find? p = some x) (hfx : f x = x) : modifyFirst p f l = l := by
  induction l with
  | nil => simp at h
  | cons y ys ih =>
      rw [List.find?_cons] at h
      by_cases hy : p y
      · simp only [hy, cond_true] at h
        have : y = x := by injection h
        subst this
        simp [modifyFirst, hy, hfx]
      · simp only [hy, cond_false] at h
        simp [modifyFirst, hy, ih h]

theorem find?_modifyFirst {α : Type} {p : α → Bool} {f : α → α} {l : List α} {x : α}
    (h : l.find? p = some x) (hpx : p (f x) = true) :
    (modifyFirst p f l).find? p = some (f x) := by
  induction l with
  | nil => simp at h
  | cons y ys ih =>
      rw [List.find?_cons] at h
      by_cases hy : p y
      · simp only [hy, cond_true] at h
        have : y = x := by injection h
        subst this
        simp [modifyFirst, hy, List.find?_cons, hpx]
      · simp only [hy, cond_false] at h
        simp [modifyFirst, hy, List.find?_cons, ih h]

theorem modifyFirst_modifyFirst {α : Type} {p : α → Bool} (f g : α → α)
    (hg : ∀ x, p (g x) = p x) (l : List α) :
    modifyFirst p f (modifyFirst p g l) = modifyFirst p (fun x => f (g x)) l := by
  induction l with
  | nil => rfl
  | cons y ys ih =>
      by_cases hy : p y
      · simp [modifyFirst, hy, hg y]
      · simp [modifyFirst, hy, ih]

theorem modifyFirst_congr {α : Type} {p : α → Bool} (f g : α → α) (l : List α)
    (h : ∀ x ∈ l, p x = true → f x = g x) :
    modifyFirst p f l = modifyFirst p g l := by
  induction l with
  | nil => rfl
  | cons y ys ih =>
      by_cases hy : p y
      · simp [modifyFirst, hy, h y (List.mem_cons_self y ys) hy]
      · simp only [modifyFirst, hy]
        simp [ih (fun x hx hpx => h x (List.mem_cons_of_mem _ hx) hpx)]

/- After erasing the unique element with a given key, no element with
   that key remains. -/

theorem eraseP_key_not {α : Type} (key : α → Nat) (a : Nat) :
    ∀ l : List α, (l.map key).Nodup →
      ∀ x ∈ l.eraseP (fun y => key y == a), ¬ (key x == a) = true := by
  intro l
  induction l with
  | nil => simp
  | cons y ys ih =>
      intro hnd x hx
      rw [List.eraseP_cons] at hx
      have hnd2 : (ys.map key).Nodup := (List.nodup_cons.mp (by simpa using hnd)).2
      by_cases hy : (key y == a) = true
      · rw [hy] at hx
        simp only [cond_true] at hx
        have ha : key y = a := by simpa using hy
        have hnm : key y ∉ ys.map key := (List.nodup_cons.mp (by simpa using hnd)).1
        intro hxa
        exact hnm (by
          rw [ha]
          exact List.mem_map.mpr ⟨x, hx, by simpa using hxa⟩)
      · rw [Bool.of_not_eq_true hy] at hx
        simp only [cond_false, List.mem_cons] at hx
        rcases hx with hx | hx
        · subst hx; exact hy
        · exact ih hnd2 x hx

theorem eraseP_key_idem {α : Type} (key : α → Nat) (a : Nat) (l : List α)
    (h : (l.map key).Nodup) :
    (l.eraseP (fun y => key y == a)).eraseP (fun y => key y == a) =
      l.eraseP (fun y => key y == a) :=
  List.eraseP_of_forall_not (eraseP_key_not key a l h)

/- reassignAux facts. -/

theorem reassignAux_idem (l : List BigBone) :
    ∀ i : Nat, reassignAux i (reassignAux i l) = reassignAux i l := by
  induction l with
  | nil => intro i; rfl
  | cons b bs ih => intro i; simp [reassignAux, ih]

theorem mem_reassignAux {x : BigBone} (l : List BigBone) :
    ∀ i : Nat, x ∈ reassignAux i l → ∃ b ∈ l, x.id = b.id := by
  induction l with
  | nil => intro i h; cases h
  | cons b bs ih =>
      intro i h
      rcases List.mem_cons.mp h with h | h
      · exact ⟨b, List.mem_cons_self _ _, by rw [h]⟩
      · rcases ih (i + 1) h with ⟨c, hc, hid⟩
        exact ⟨c, List.mem_cons_of_mem _ hc, hid⟩

/- ──────────────────────────────────────────────────────────────
   C7: creation order of the add operations. -/

/-- C7 counterexample: in the state stOne (one big bone, id 1, already
holding the mid bone with id 3), addMidBone prepends the new mid bone at
the front of the sequence, so the result is not the old sequence with the
new bone appended at the end. -/
theorem C7_counterexample :
    (addMidBone stOne 1).bigBones =
      [{ id := 1, label := "B", position := Pos.top,
         midBones := [{ id := 6, label := "中骨 2", smallBones := [] },
                      { id := 3, label := "M", smallBones := [] }] }] ∧
    ([{ id := 6, label := "中骨 2", smallBones := [] },
      { id := 3, label := "M", smallBones := [] }] : List MidBone) ≠
      [{ id := 3, label := "M", smallBones := [] },
       { id := 6, label := "中骨 2", smallBones := [] }] := by
  constructor
  · decide
  · decide

/-- C7 (amended): addBigBone appends the new big bone at the end of the
root list and addSmallBone appends the new small bone at the end of the
found mid bone, but addMidBone prepends the new mid bone at the front of
the found big bone. -/
theorem C7_creation_order (st : ComponentState) (bigId midId : Nat) (b : BigBone) (m : MidBone)
    (hb : st.bigBones.find? (fun x => x.id == bigId) = some b)
    (hm : b.midBones.find? (fun x => x.id == midId) = some m) :
    (addBigBone st).bigBones =
      st.bigBones ++
        [{ id := st.idSeq + 1, label := "大骨 " ++ toString (st.bigBones.length + 1),
           position := parityPos st.bigBones.length, midBones := [] }] ∧
    (addMidBone st bigId).bigBones.find? (fun x => x.id == bigId) =
      some { b with midBones :=
        { id := st.idSeq + 1, label := "中骨 " ++ toString (b.midBones.length + 1),
          smallBones := [] } :: b.midBones } ∧
    ((addSmallBone st bigId midId).bigBones.find? (fun x => x.id == bigId)).bind
        (fun bb => bb.midBones.find? (fun x => x.id == midId)) =
      some { m with smallBones := m.smallBones ++
        [{ id := st.idSeq + 1, label := "小骨 " ++ toString (m.smallBones.length + 1) }] } := by
  have hpb : (b.id == bigId) = true := by simpa using List.find?_some hb
  have hpm : (m.id == midId) = true := by simpa using List.find?_some hm
  refine ⟨rfl, ?_, ?_⟩
  · unfold addMidBone
    rw [hb]
    exact find?_modifyFirst hb hpb
  · unfold addSmallBone
    split
    · rename_i heq
      rw [heq] at hb; cases hb
    · rename_i x heq
      rw [heq] at hb
      injection hb with hxb
      subst hxb
      split
      · rename_i heq2
        rw [heq2] at hm; cases hm
      · rename_i m2 heq2
        rw [heq2] at hm
        injection hm with hm2
        subst hm2
        rw [find?_modifyFirst heq hpb]
        exact find?_modifyFirst heq2 hpm

/-- C7 witness: the amended statement at the concrete state stOne with
big bone id 1 and mid bone id 3. -/
theorem C7_creation_order_witness :
    stOne.bigBones.find? (fun x => x.id == 1) = some bigOne ∧
    bigOne.midBones.find? (fun x => x.id == 3) = some midOne ∧
    ((addBigBone stOne).bigBones =
      stOne.bigBones ++
        [{ id := 6, label := "大骨 " ++ toString 2,
           position := parityPos 1, midBones := [] }] ∧
    (addMidBone stOne 1).bigBones.find? (fun x => x.id == 1) =
      some { bigOne with midBones :=
        { id := 6, label := "中骨 " ++ toString 2, smallBones := [] } :: bigOne.midBones } ∧
    ((addSmallBone stOne 1 3).bigBones.find? (fun x => x.id == 1)).bind
        (fun bb => bb.midBones.find? (fun x => x.id == 3)) =
      some { midOne with smallBones := midOne.smallBones ++
        [{ id := 6, label := "小骨 " ++ toString 1 }] }) :=
  ⟨rfl, rfl, C7_creation_order stOne 1 3 bigOne midOne rfl rfl⟩

/- ──────────────────────────────────────────────────────────────
   C9: unresolved paths are silent no-ops, deletions are idempotent. -/

/-- C9: under the data-model invariants (positions assigned by index
parity, unique ids per level), deleteBone on a path whose ids do not
resolve leaves the state unchanged, deleting the same path twice gives
the same state as deleting it once, and addMidBone or addSmallBone with
a non-existent parent id leaves the state unchanged. -/
theorem C9_noop_idempotent (st : ComponentState) (d : DelInfo) (i j : Nat)
    (hpar : reassignPositions st.bigBones = st.bigBones)
    (hnodup : treeIdsNodup st.bigBones)
    (hres : delResolves st d = false)
    (hmid : midParentResolves st i = false)
    (hsm : smallParentResolves st i j = false) :
    deleteBone st d = st ∧
    (∀ d2 : DelInfo, deleteBone (deleteBone st d2) d2 = deleteBone st d2) ∧
    addMidBone st i = st ∧
    addSmallBone st i j = st := by
  refine ⟨?_, ?_, ?_, ?_⟩
  · -- unresolved delete is a no-op
    cases d with
    | big bid =>
        have hres2 : (st.bigBones.find? (fun b => b.id == bid)).isSome = false := hres
        have hf : st.bigBones.find? (fun b => b.id == bid) = none :=
          Option.not_isSome_iff_eq_none.mp (by simp [hres2])
        simp only [deleteBone]
        rw [List.eraseP_of_forall_not (List.find?_eq_none.mp hf), hpar]
    | mid bid midId =>
        cases hfb : st.bigBones.find? (fun b => b.id == bid) with
        | none =>
            simp only [deleteBone]
            rw [modifyFirst_of_find?_none _ hfb]
        | some b =>
            have hres2 : (b.midBones.find? (fun m => m.id == midId)).isSome = false := by
              simp only [delResolves, hfb] at hres
              exact hres
            have hfm : b.midBones.find? (fun m => m.id == midId) = none :=
              Option.not_isSome_iff_eq_none.mp (by simp [hres2])
            have hfix : ({ b with
                midBones := b.midBones.eraseP (fun m => m.id == midId) } : BigBone) = b := by
              rw [List.eraseP_of_forall_not (List.find?_eq_none.mp hfm)]
            simp only [deleteBone]
            rw [modifyFirst_fix
              (fun b => { b with midBones := b.midBones.eraseP (fun m => m.id == midId) })
              hfb hfix]
    | small bid midId smId =>
        cases hfb : st.bigBones.find? (fun b => b.id == bid) with
        | none =>
            simp only [deleteBone]
            rw [modifyFirst_of_find?_none _ hfb]
        | some b =>
            cases hfm : b.midBones.find? (fun m => m.id == midId) with
            | none =>
                have hfix : ({ b with
                    midBones :=
                      modifyFirst (fun m => m.id == midId)
                        (fun m => { m with
                          smallBones := m.smallBones.eraseP (fun s => s.id == smId) })
                        b.midBones } : BigBone) = b := by
                  rw [modifyFirst_of_find?_none _ hfm]
                simp only [deleteBone]
                rw [modifyFirst_fix
                  (fun b => { b with
                    midBones :=
                      modifyFirst (fun m => m.id == midId)
                        (fun m => { m with
                          smallBones := m.smallBones.eraseP (fun s => s.id == smId) })
                        b.midBones })
                  hfb hfix]
            | some m =>
                have hres2 : (m.smallBones.find? (fun s => s.id == smId)).isSome = false := by
                  simp only [delResolves, hfb] at hres
                  rw [hfm] at hres
                  exact hres
                have hfs : m.smallBones.find? (fun s => s.id == smId) = none :=
                  Option.not_isSome_iff_eq_none.mp (by simp [hres2])
                have hmfix : ({ m with
                    smallBones := m.smallBones.eraseP (fun s => s.id == smId) } : MidBone) = m := by
                  rw [List.eraseP_of_forall_not (List.find?_eq_none.mp hfs)]
                have hfix : ({ b with
                    midBones :=
                      modifyFirst (fun m => m.id == midId)
                        (fun m => { m with
                          smallBones := m.smallBones.eraseP (fun s => s.id == smId) })
                        b.midBones } : BigBone) = b := by
                  rw [modifyFirst_fix
                    (fun m => { m with
                      smallBones := m.smallBones.eraseP (fun s => s.id == smId) })
                    hfm hmfix]
                simp only [deleteBone]
                rw [modifyFirst_fix
                  (fun b => { b with
                    midBones :=
                      modifyFirst (fun m => m.id == midId)
                        (fun m => { m with
                          smallBones := m.smallBones.eraseP (fun s => s.id == smId) })
                        b.midBones })
                  hfb hfix]
  · -- deletion is idempotent by path
    intro d2
    cases d2 with
    | big bid =>
        have h1 : ∀ x ∈ reassignAux 0 (st.bigBones.eraseP (fun b => b.id == bid)),
            ¬ (x.id == bid) = true := by
          intro x hx
          rcases mem_reassignAux _ 0 hx with ⟨c, hc, hid⟩
          rw [hid]
          exact eraseP_key_not (fun b => b.id) bid st.bigBones hnodup.1 c hc
        simp only [deleteBone, reassignPositions]
        rw [List.eraseP_of_forall_not h1, reassignAux_idem]
    | mid bid midId =>
        simp only [deleteBone]
        congr 1
        rw [modifyFirst_modifyFirst
          (fun b => { b with midBones := b.midBones.eraseP (fun m => m.id == midId) })
          (fun b => { b with midBones := b.midBones.eraseP (fun m => m.id == midId) })
          (fun x => rfl) st.bigBones]
        exact modifyFirst_congr _ _ st.bigBones (fun x hx _ => by
          show ({ x with
              midBones :=
                (x.midBones.eraseP (fun m => m.id == midId)).eraseP
                  (fun m => m.id == midId) } : BigBone) =
            ({ x with
              midBones := x.midBones.eraseP (fun m => m.id == midId) } : BigBone)
          rw [eraseP_key_idem (fun m => m.id) midId x.midBones (hnodup.2 x hx).1])
    | small bid midId smId =>
        simp only [deleteBone]
        congr 1
        rw [modifyFirst_modifyFirst
          (fun b => { b with
            midBones :=
              modifyFirst (fun m => m.id == midId)
                (fun m => { m with
                  smallBones := m.smallBones.eraseP (fun s => s.id == smId) })
                b.midBones })
          (fun b => { b with
            midBones :=
              modifyFirst (fun m => m.id == midId)
                (fun m => { m with
                  smallBones := m.smallBones.eraseP (fun s => s.id == smId) })
                b.midBones })
          (fun x => rfl) st.bigBones]
        exact modifyFirst_congr _ _ st.bigBones (fun x hx _ => by
          show ({ x with
              midBones :=
                modifyFirst (fun m => m.id == midId)
                  (fun m => { m with
                    smallBones := m.smallBones.eraseP (fun s => s.id == smId) })
                  (modifyFirst (fun m => m.id == midId)
                    (fun m => { m with
                      smallBones := m.smallBones.eraseP (fun s => s.id == smId) })
                    x.midBones) } : BigBone) =
            ({ x with
              midBones :=
                modifyFirst (fun m => m.id == midId)
                  (fun m => { m with
                    smallBones := m.smallBones.eraseP (fun s => s.id == smId) })
                  x.midBones } : BigBone)
          rw [modifyFirst_modifyFirst
            (fun m => { m with
              smallBones := m.smallBones.eraseP (fun s => s.id == smId) })
            (fun m => { m with
              smallBones := m.smallBones.eraseP (fun s => s.id == smId) })
            (fun m => rfl) x.midBones]
          congr 1
          exact modifyFirst_congr _ _ x.midBones (fun m hm _ => by
            show ({ m with
                smallBones :=
                  (m.smallBones.eraseP (fun s => s.id == smId)).eraseP
                    (fun s => s.id == smId) } : MidBone) =
              ({ m with
                smallBones := m.smallBones.eraseP (fun s => s.id == smId) } : MidBone)
            rw [eraseP_key_idem (fun s => s.id) smId m.smallBones
              ((hnodup.2 x hx).2 m hm)]))
  · -- addMidBone under a missing parent is a no-op
    have hmid2 : (st.bigBones.find? (fun b => b.id == i)).isSome = false := hmid
    have hf : st.bigBones.find? (fun b => b.id == i) = none :=
      Option.not_isSome_iff_eq_none.mp (by simp [hmid2])
    unfold addMidBone
    rw [hf]
  · -- addSmallBone under a missing parent is a no-op
    unfold addSmallBone
    split
    · rfl
    · rename_i x heq
      simp only [smallParentResolves, heq] at hsm
      split
      · rfl
      · rename_i m2 heq2
        rw [heq2] at hsm
        simp at hsm

/-- C9 witness: the statement at the concrete state stOne with the
unresolved path big-id 99. -/
theorem C9_noop_idempotent_witness :
    (reassignPositions stOne.bigBones = stOne.bigBones ∧
     treeIdsNodup stOne.bigBones ∧
     delResolves stOne (DelInfo.big 99) = false ∧
     midParentResolves stOne 99 = false ∧
     smallParentResolves stOne 99 1 = false) ∧
    deleteBone stOne (DelInfo.big 99) = stOne ∧
    deleteBone (deleteBone stOne (DelInfo.big 99)) (DelInfo.big 99) =
      deleteBone stOne (DelInfo.big 99) ∧
    addMidBone stOne 99 = stOne ∧
    addSmallBone stOne 99 1 = stOne := by
  have h := C9_noop_idempotent stOne (DelInfo.big 99) 99 1 (by decide) (by decide)
    (by decide) (by decide) (by decide)
  exact ⟨⟨by decide, by decide, by decide, by decide, by decide⟩,
    h.1, h.2.1 (DelInfo.big 99), h.2.2.1, h.2.2.2⟩

/- ──────────────────────────────────────────────────────────────
   C10: effects and frame of setData. -/

theorem buildSmalls_fst (l : List ExtSmall) :
    ∀ seq k : Nat, (buildSmalls seq k l).1 = seq + l.length := by
  induction l with
  | nil => intro seq k; simp [buildSmalls]
  | cons s rest ih =>
      intro seq k
      simp [buildSmalls, ih (seq + 1) (k + 1)]
      omega

theorem buildMids_fst (l : List ExtMid) :
    ∀ seq j : Nat,
      (buildMids seq j l).1 =
        seq + (l.map (fun m => 1 +
          match m.smallBones with
          | none => 0
          | some ss => ss.length)).sum := by
  induction l with
  | nil => intro seq j; simp [buildMids]
  | cons m rest ih =>
      intro seq j
      cases hms : m.smallBones with
      | none => simp [buildMids, hms, ih]; omega
      | some ss => simp [buildMids, hms, ih, buildSmalls_fst]; omega

theorem buildBigs_fst (l : List ExtBig) :
    ∀ seq i : Nat,
      (buildBigs seq i l).1 =
        seq + (l.map (fun b => 1 +
          match b.midBones with
          | none => 0
          | some ms =>
              (ms.map (fun m => 1 +
                match m.smallBones with
                | none => 0
                | some ss => ss.length)).sum)).sum := by
  induction l with
  | nil => intro seq i; simp [buildBigs]
  | cons b rest ih =>
      intro seq i
      cases hms : b.midBones with
      | none => simp [buildBigs, hms, ih]; omega
      | some ms => simp [buildBigs, hms, ih, buildMids_fst]; omega

/-- C10 (amended): setData replaces the big-bone tree, resets the id
counter to zero before regenerating ids (so afterwards the counter equals
the number of bones created, not zero), leaves the head label unchanged
when the supplied headLabel is absent or empty, overwrites it when a
non-empty headLabel is supplied, and modifies no other component state. -/
theorem C10_setData_effects (st : ComponentState) (d : ExtData) :
    (setData st d).idSeq = extBoneCount d ∧
    (d.headLabel = none ∨ d.headLabel = some "" → (setData st d).headLabel = st.headLabel) ∧
    (∀ s : String, d.headLabel = some s → s ≠ "" → (setData st d).headLabel = s) ∧
    (setData st d).mode = st.mode ∧
    (setData st d).panX = st.panX ∧
    (setData st d).panY = st.panY ∧
    (setData st d).scale = st.scale ∧
    (setData st d).loading = st.loading ∧
    (setData st d).headHovering = st.headHovering := by
  refine ⟨?_, ?_, ?_, rfl, rfl, rfl, rfl, rfl, rfl⟩
  · obtain ⟨hl, bb⟩ := d
    cases bb with
    | none => rfl
    | some l => simpa [setData, extBoneCount] using buildBigs_fst l 0 0
  · rintro (h | h) <;> simp [setData, h]
  · intro s hs hne
    simp [setData, hs, hne]

/-- C10 counterexample: importing a record with one big bone leaves the
id counter at one, not zero, after setData returns. -/
theorem C10_counterexample :
    (setData baseState dOneBig).idSeq = 1 ∧ (1 : Nat) ≠ 0 := ⟨by decide, by decide⟩

/-- C10 witness: the amended statement at concrete inputs, once with an
empty headLabel (preserved) and once with a non-empty one (overwritten). -/
theorem C10_setData_effects_witness :
    ((dEmptyHead.headLabel = none ∨ dEmptyHead.headLabel = some "") ∧
      (setData baseState dEmptyHead).headLabel = baseState.headLabel) ∧
    (dNewHead.headLabel = some "X" ∧ "X" ≠ "" ∧
      (setData baseState dNewHead).headLabel = "X") ∧
    (setData baseState dOneBig).idSeq = extBoneCount dOneBig :=
  ⟨⟨Or.inr rfl, (C10_setData_effects baseState dEmptyHead).2.1 (Or.inr rfl)⟩,
   ⟨rfl, by decide, (C10_setData_effects baseState dNewHead).2.2.1 "X" rfl (by decide)⟩,
   (C10_setData_effects baseState dOneBig).1⟩

/- ──────────────────────────────────────────────────────────────
   C8: export/import round trip. -/

theorem buildSmalls_of_map (l : List SmallBone) :
    ∀ seq k : Nat,
      ((buildSmalls seq k (l.map extOfSmall)).2.length = l.length) ∧
      ((∀ s ∈ l, s.label ≠ "") →
        (buildSmalls seq k (l.map extOfSmall)).2.map (fun s => s.label) =
          l.map (fun s => s.label)) := by
  induction l with
  | nil => intro seq k; exact ⟨rfl, fun _ => rfl⟩
  | cons s rest ih =>
      intro seq k
      constructor
      · simpa [buildSmalls, extOfSmall] using (ih (seq + 1) (k + 1)).1
      · intro hne
        have hs : s.label ≠ "" := (hne s (List.mem_cons_self _ _))
        have hrest := (ih (seq + 1) (k + 1)).2
          (fun x hx => hne x (List.mem_cons_of_mem _ hx))
        simp [buildSmalls, extOfSmall, hs, hrest]

theorem buildMids_of_map (l : List MidBone) :
    ∀ seq j : Nat,
      ((buildMids seq j (l.map extOfMid)).2.map (fun m => m.smallBones.length) =
        l.map (fun m => m.smallBones.length)) ∧
      ((∀ m ∈ l, m.label ≠ "" ∧ ∀ s ∈ m.smallBones, s.label ≠ "") →
        (buildMids seq j (l.map extOfMid)).2.map
            (fun m => (m.label, m.smallBones.map (fun s => s.label))) =
          l.map (fun m => (m.label, m.smallBones.map (fun s => s.label)))) := by
  induction l with
  | nil => intro seq j; exact ⟨rfl, fun _ => rfl⟩
  | cons m rest ih =>
      intro seq j
      constructor
      · have hlen := (buildSmalls_of_map m.smallBones (seq + 1) 0).1
        simpa [buildMids, extOfMid, hlen] using (ih _ (j + 1)).1
      · intro hne
        have hm : m.label ≠ "" := (hne m (List.mem_cons_self _ _)).1
        have hsm := (buildSmalls_of_map m.smallBones (seq + 1) 0).2
          (hne m (List.mem_cons_self _ _)).2
        have hrest := fun sq : Nat => (ih sq (j + 1)).2
          (fun x hx => hne x (List.mem_cons_of_mem _ hx))
        simp [buildMids, extOfMid, hm, hsm, hrest]

theorem buildBigs_of_map (l : List BigBone) :
    ∀ seq i : Nat,
      (shape (buildBigs seq i (l.map extOfBig)).2 = shape l) ∧
      (labelsNonempty l →
        labelTree (buildBigs seq i (l.map extOfBig)).2 = labelTree l) := by
  induction l with
  | nil => intro seq i; exact ⟨rfl, fun _ => rfl⟩
  | cons b rest ih =>
      intro seq i
      constructor
      · have hmid := (buildMids_of_map b.midBones (seq + 1) 0).1
        simpa [buildBigs, extOfBig, shape, hmid] using (ih _ (i + 1)).1
      · intro hne
        have hb : b.label ≠ "" := (hne b (List.mem_cons_self _ _)).1
        have hmid := (buildMids_of_map b.midBones (seq + 1) 0).2
          (hne b (List.mem_cons_self _ _)).2
        have hrest := fun sq : Nat => (ih sq (i + 1)).2
          (fun x hx => hne x (List.mem_cons_of_mem _ hx))
        simp only [labelTree] at hrest
        simp [buildBigs, extOfBig, labelTree, hb, hmid, hrest]

/-- C8 counterexample: a live tree whose single big bone has the empty
label does not round trip: setData falls back to the indexed default
label, so the label tree differs. -/
theorem C8_counterexample :
    labelTree (setData stEmptyLabel (getData stEmptyLabel)).bigBones ≠
      labelTree stEmptyLabel.bigBones := by decide

/-- C8 (amended): importing the export of a live tree always reproduces
the nesting structure (bone counts at every level), unconditionally; it
reproduces the labels whenever every label in the live tree is
non-empty. -/
theorem C8_roundtrip (st : ComponentState) :
    shape (setData st (getData st)).bigBones = shape st.bigBones ∧
    (labelsNonempty st.bigBones →
      labelTree (setData st (getData st)).bigBones = labelTree st.bigBones) := by
  have hb := buildBigs_of_map st.bigBones 0 0
  exact ⟨hb.1, fun h => hb.2 h⟩

/-- C8 witness: the amended statement at the concrete state stOne, whose
labels are all non-empty, and the unconditional structure clause also at
stEmptyLabel, the empty-label tree of the counterexample. -/
theorem C8_roundtrip_witness :
    (labelsNonempty stOne.bigBones ∧
      shape (setData stOne (getData stOne)).bigBones = shape stOne.bigBones ∧
      labelTree (setData stOne (getData stOne)).bigBones = labelTree stOne.bigBones) ∧
    shape (setData stEmptyLabel (getData stEmptyLabel)).bigBones =
      shape stEmptyLabel.bigBones :=
  ⟨⟨by decide, (C8_roundtrip stOne).1, (C8_roundtrip stOne).2 (by decide)⟩,
   (C8_roundtrip stEmptyLabel).1⟩

/- ──────────────────────────────────────────────────────────────
   Basic real-number facts for the layout proofs. -/

theorem sqrt2_pos : (0 : ℝ) < sqrt2 := Real.sqrt_pos.mpr (by norm_num)

theorem sqrt2_sq : sqrt2 * sqrt2 = 2 := Real.mul_self_sqrt (by norm_num)

theorem sqrt2_ne : sqrt2 ≠ 0 := ne_of_gt sqrt2_pos

theorem calcDiag_ge (b : BigBone) : DIAG ≤ calcDiag b := by
  unfold calcDiag
  split
  · exact le_rfl
  · exact le_max_left _ _

theorem calcDiag_pos (b : BigBone) : 0 < calcDiag b :=
  lt_of_lt_of_le (by norm_num [DIAG]) (calcDiag_ge b)

theorem dd_nonneg (b : BigBone) : 0 ≤ calcDiag b / sqrt2 :=
  div_nonneg (calcDiag_pos b).le sqrt2_pos.le

theorem boneLeftExtentAux_ge (dd diag : ℝ) (ms : List MidBone) :
    ∀ acc init : ℝ, init ≤ boneLeftExtentAux dd diag acc init ms := by
  induction ms with
  | nil => intro acc init; exact le_rfl
  | cons m rest ih =>
      intro acc init
      calc init ≤ max init _ := le_max_left _ _
        _ ≤ _ := ih _ _

theorem boneLeftExtent_ge (b : BigBone) :
    calcDiag b / sqrt2 + 80 ≤ boneLeftExtent b :=
  boneLeftExtentAux_ge _ _ _ _ _

theorem boneLeftExtent_nonneg (b : BigBone) : 0 ≤ boneLeftExtent b := by
  have h1 := dd_nonneg b
  have h2 := boneLeftExtent_ge b
  linarith

theorem groupExt_nonneg (g : Group) : 0 ≤ groupExt g :=
  le_trans (boneLeftExtent_nonneg g.1) (le_max_left _ _)

theorem rightHalf_ge (g : Group) : 20 ≤ rightHalf g := by
  have h1 : (0 : ℝ) ≤ max (calcDiag g.1 / sqrt2) (g.2.elim 0 (fun b => calcDiag b / sqrt2)) :=
    le_trans (dd_nonneg g.1) (le_max_left _ _)
  unfold rightHalf
  nlinarith

/- ──────────────────────────────────────────────────────────────
   C5: the diagonal-length formula. -/

theorem sum_map_gap (l : List SmallBone) :
    (l.map (fun x => SM_GAP_Y + smBoxH x)).sum =
      (l.length : ℝ) * SM_GAP_Y + (l.map smBoxH).sum := by
  induction l with
  | nil => simp
  | cons s rest ih =>
      simp [ih]
      ring

theorem totalSmallBonesH_eq_spec (m : MidBone) :
    totalSmallBonesH m = specSmallGroupH m := by
  obtain ⟨mid, lbl, sb⟩ := m
  cases sb with
  | nil => simp [totalSmallBonesH, specSmallGroupH]
  | cons s rest =>
      simp [totalSmallBonesH, specSmallGroupH, sum_map_gap]
      ring

theorem midBoneSpan_eq_spec (m : MidBone) : midBoneSpan m = specMidBoneSpan m := by
  unfold midBoneSpan specMidBoneSpan
  rw [totalSmallBonesH_eq_spec]

/-- C5 (amended): calcDiag is the fixed default for a big bone without
mid bones, and otherwise the maximum of the default and the head margin
plus the sum of the mid-bone spans plus the fixed 50 tail margin, where
each span is max(midBoxHeight + 20, smallGroupHeight + midBoxHeight)
multiplied by the square root of two and rounded up to the next integer,
and the small group height sums the small-bone box heights with one
fixed gap between consecutive items. -/
theorem C5_calcDiag_spec (b : BigBone) : calcDiag b = specCalcDiag b := by
  have h : midBoneSpan = specMidBoneSpan := funext midBoneSpan_eq_spec
  unfold calcDiag specCalcDiag
  rw [h]

theorem ceil_44_sqrt2 : (⌈(44 : ℝ) * sqrt2⌉ : ℤ) = 63 := by
  rw [Int.ceil_eq_iff]
  constructor
  · push_cast
    nlinarith [sqrt2_sq, sqrt2_pos]
  · push_cast
    nlinarith [sqrt2_sq, sqrt2_pos, sq_nonneg (44 * sqrt2 - 63)]

theorem calcDiag_bOneMid : calcDiag bOneMid = 193 := by
  have hspan : midBoneSpan (mPlain 2) = 63 := by
    unfold midBoneSpan
    rw [show totalSmallBonesH (mPlain 2) = 0 from rfl]
    rw [show max (MID_BOX_H + 20) ((0 : ℝ) + MID_BOX_H) = 44 by norm_num [MID_BOX_H]]
    rw [ceil_44_sqrt2]
    norm_num
  have hne : bOneMid.midBones = [mPlain 2] := rfl
  unfold calcDiag calcHeadMargin
  rw [hne]
  simp [hspan, DIAG, BIG_BOX_H]
  norm_num

/-- C5 counterexample: for a big bone with one mid bone and no small
bones the code yields calcDiag = 193 (the span is the integer ceiling
of 44·√2 = 63), while the claimed formula without the ceiling yields
130 + 44·√2 < 193. -/
theorem C5_counterexample : calcDiag bOneMid ≠ claimCalcDiagNoCeil bOneMid := by
  have h3 : 44 * sqrt2 < 63 := by
    nlinarith [sqrt2_sq, sqrt2_pos, sq_nonneg (44 * sqrt2 - 63)]
  have hsp : claimMidBoneSpanNoCeil (mPlain 2) = 44 * sqrt2 := by
    unfold claimMidBoneSpanNoCeil
    rw [show specSmallGroupH (mPlain 2) = 0 from rfl]
    norm_num [MID_BOX_H]
  have hne : bOneMid.midBones = [mPlain 2] := rfl
  have hlt : claimCalcDiagNoCeil bOneMid < 193 := by
    unfold claimCalcDiagNoCeil calcHeadMargin
    rw [hne]
    simp [hsp, DIAG, BIG_BOX_H]
    constructor
    · norm_num
    · rw [show (80 : ℝ) ⊔ (32 + 40) = 80 by norm_num]
      linarith
  rw [calcDiag_bOneMid]
  exact ne_of_gt hlt

/- ──────────────────────────────────────────────────────────────
   C1: the leftward-extent formula. -/

theorem calcDynamicMidLen_eq_spec (m : MidBone) :
    calcDynamicMidLen m = specDynReach m := by
  unfold calcDynamicMidLen specDynReach
  split
  · rename_i h
    rw [h]
    norm_num
  · rfl

theorem axOff_eq (diag c : ℝ) (h : diag ≠ 0) :
    (diag / sqrt2) * (c / diag) = c / sqrt2 := by
  field_simp [sqrt2_ne]
  ring

theorem boneLeftExtentAux_spec (diag : ℝ) (hd : diag ≠ 0) (ms : List MidBone) :
    ∀ acc init : ℝ,
      boneLeftExtentAux (diag / sqrt2) diag acc init ms =
        (specLeftList acc ms).foldl max init := by
  induction ms with
  | nil => intro acc init; rfl
  | cons m rest ih =>
      intro acc init
      simp only [boneLeftExtentAux, specLeftList, List.foldl_cons]
      rw [ih]
      congr 2
      unfold specMidLeftReach
      rw [axOff_eq diag _ hd, calcDynamicMidLen_eq_spec]

/-- C1: for every big bone, boneLeftExtent equals the maximum of
(a) calcDiag divided by the square root of two plus the 80 margin and
(b) for each mid bone, the horizontal projection of its center offset
along the diagonal plus its dynamic reach (base mid length plus half the
small-bone group height) plus its label-box width plus, when it has
small bones, the link length plus the widest small-bone box width, with
the small fixed margins. -/
theorem C1_boneLeftExtent_spec (b : BigBone) : boneLeftExtent b = specLeftExtent b := by
  unfold boneLeftExtent specLeftExtent
  exact boneLeftExtentAux_spec (calcDiag b) (ne_of_gt (calcDiag_pos b)) b.midBones _ _

/- ──────────────────────────────────────────────────────────────
   C6: a pair group's width and slot anchors. -/

/-- C6 counterexample: for the two-big-bone tree fdPair with identical
subtrees, the two slots do not share the same anchor X: the bottom slot
anchors PAIR_GAP further toward the tail. -/
theorem C6_counterexample :
    ((slots fdPair).map Slot.x) =
      [firstBoneX (mkGroups fdPair.bigBones),
       firstBoneX (mkGroups fdPair.bigBones) - PAIR_GAP] ∧
    firstBoneX (mkGroups fdPair.bigBones) ≠
      firstBoneX (mkGroups fdPair.bigBones) - PAIR_GAP := by
  constructor
  · simp [slots, fdPair, mkGroups, placeGroups, relPlace, slotsOfGroup, Option.elim]
  · intro h
    have h0 : (PAIR_GAP : ℝ) = 0 := by linarith
    norm_num [PAIR_GAP] at h0

/-- C6 (amended): for a tree of exactly two big bones the single pair
group reserves width max(boneW first, boneW second) + PAIR_GAP, shared
by both slots; the top slot anchors at firstBoneX and the bottom slot at
firstBoneX - PAIR_GAP, so the anchors differ by exactly PAIR_GAP rather
than coinciding. -/
theorem C6_pair_slots (b1 b2 : BigBone) :
    slots { bigBones := [b1, b2] } =
      [{ b := b1, x := firstBoneX (mkGroups [b1, b2]),
         w := max (boneW b1) (boneW b2) + PAIR_GAP },
       { b := b2, x := firstBoneX (mkGroups [b1, b2]) - PAIR_GAP,
         w := max (boneW b1) (boneW b2) + PAIR_GAP }] := by
  simp [slots, mkGroups, placeGroups, relPlace, slotsOfGroup, groupWidth, Option.elim]

/- ──────────────────────────────────────────────────────────────
   C3: the head-most anchor as a max-reduction over group demands. -/

theorem relPlace_snd_ge (gs : List Group) :
    ∀ cursor : ℝ, ∀ p ∈ relPlace cursor gs, cursor + 20 ≤ p.2 := by
  induction gs with
  | nil => intro cursor p hp; cases hp
  | cons g rest ih =>
      intro cursor p hp
      have h20 := rightHalf_ge g
      rcases List.mem_cons.mp hp with h | h
      · rw [h]
        show cursor + 20 ≤ cursor + rightHalf g
        linarith
      · have hrec := ih (cursor + rightHalf g + groupExt g + GROUP_GAP) p h
        have hext := groupExt_nonneg g
        have hgg : GROUP_GAP = (30 : ℝ) := rfl
        linarith

theorem placeGroups_snd_nonneg (gs : List Group) :
    ∀ p ∈ placeGroups gs, 0 ≤ p.2 := by
  cases gs with
  | nil => intro p hp; cases hp
  | cons g rest =>
      intro p hp
      rcases List.mem_cons.mp hp with h | h
      · rw [h]
      · have hrec := relPlace_snd_ge rest _ p h
        have hext := groupExt_nonneg g
        have hgg : GROUP_GAP = (30 : ℝ) := rfl
        linarith

theorem anchorTerms_lb (gs : List Group) :
    ∀ t ∈ anchorTerms gs, tailSafeRight + 150 ≤ t := by
  intro t ht
  rcases List.mem_map.mp ht with ⟨p, hp, rfl⟩
  have h1 := placeGroups_snd_nonneg gs p hp
  have h2 := groupExt_nonneg p.1
  have htg : TAIL_GAP = (150 : ℝ) := rfl
  linarith

theorem mkGroups_ne_nil {l : List BigBone} (h : l ≠ []) : mkGroups l ≠ [] := by
  cases l with
  | nil => exact absurd rfl h
  | cons a rest =>
      cases rest with
      | nil => simp [mkGroups]
      | cons b rest2 => simp [mkGroups]

theorem anchorTerms_ne_nil {gs : List Group} (h : gs ≠ []) : anchorTerms gs ≠ [] := by
  cases gs with
  | nil => exact absurd rfl h
  | cons g rest => simp [anchorTerms, placeGroups]

/-- C3: for a non-empty tree the head-most anchor firstBoneX is the
maximum over all groups of tailSafeRight + TAIL_GAP + the group's
relative offset + its left envelope: it is one of those terms and no
term exceeds it (a max-reduction, not a greedy placement). -/
theorem C3_firstBoneX_max (fd : FishData) (h : fd.bigBones ≠ []) :
    firstBoneX (mkGroups fd.bigBones) ∈ anchorTerms (mkGroups fd.bigBones) ∧
    ∀ t ∈ anchorTerms (mkGroups fd.bigBones),
      t ≤ firstBoneX (mkGroups fd.bigBones) := by
  have hne : anchorTerms (mkGroups fd.bigBones) ≠ [] :=
    anchorTerms_ne_nil (mkGroups_ne_nil h)
  unfold firstBoneX
  constructor
  · rcases foldl_max_mem_or_init (anchorTerms (mkGroups fd.bigBones)) tailSafeRight with
      he | hm
    · exfalso
      obtain ⟨t0, ht0⟩ := List.exists_mem_of_ne_nil _ hne
      have h1 := anchorTerms_lb _ t0 ht0
      have h2 := le_foldl_max_mem ht0 tailSafeRight
      rw [he] at h2
      linarith
    · exact hm
  · intro t ht
    exact le_foldl_max_mem ht _

/-- C3 witness: the statement at the concrete one-bone tree fdOne. -/
theorem C3_firstBoneX_max_witness :
    fdOne.bigBones ≠ [] ∧
    firstBoneX (mkGroups fdOne.bigBones) ∈ anchorTerms (mkGroups fdOne.bigBones) :=
  ⟨by simp [fdOne], (C3_firstBoneX_max fdOne (by simp [fdOne])).1⟩

/- ──────────────────────────────────────────────────────────────
   C4: the uniform shift and the tail-clearance property. -/

/-- C4: the scanned minimum below the tail boundary triggers the exact
shift shiftX = boundary - xMin, the shifted minimum lands exactly on the
boundary, every scanned element clears the boundary after the shift, and
content above the canvas top triggers shiftY = -yMin + 40. -/
theorem C4_shift (fd : FishData) :
    (xMinOf fd < tailSafeRight →
      shiftX fd = tailSafeRight - xMinOf fd ∧
      xMinOf fd + shiftX fd = tailSafeRight) ∧
    (∀ c ∈ scannedXs fd, tailSafeRight ≤ c + shiftX fd) ∧
    (yMinOf fd < 0 → shiftY fd = -(yMinOf fd) + 40 ∧ 0 < shiftY fd) := by
  refine ⟨?_, ?_, ?_⟩
  · intro h
    unfold shiftX
    rw [if_pos h]
    exact ⟨rfl, by ring⟩
  · intro c hc
    have h1 : xMinOf fd ≤ c := foldl_min_le_mem hc _
    unfold shiftX
    split
    · linarith
    · rename_i hx
      push_neg at hx
      simp only [add_zero]
      linarith
  · intro h
    unfold shiftY
    rw [if_pos h]
    exact ⟨rfl, by linarith⟩

theorem span_mPlain (i : Nat) : midBoneSpan (mPlain i) = 63 := by
  unfold midBoneSpan
  rw [show totalSmallBonesH (mPlain i) = 0 from rfl]
  rw [show max (MID_BOX_H + 20) ((0 : ℝ) + MID_BOX_H) = 44 by norm_num [MID_BOX_H]]
  rw [ceil_44_sqrt2]
  norm_num

theorem calcDiag_bTall : calcDiag bTall = 382 := by
  have hne : bTall.midBones = [mPlain 2, mPlain 3, mPlain 4, mPlain 5] := rfl
  unfold calcDiag calcHeadMargin
  rw [hne]
  simp [span_mPlain, DIAG, BIG_BOX_H]
  norm_num

theorem dd_bTall_gt : (270 : ℝ) < calcDiag bTall / sqrt2 := by
  rw [calcDiag_bTall]
  rw [lt_div_iff₀ sqrt2_pos]
  nlinarith [sqrt2_sq, sqrt2_pos, sq_nonneg (270 * sqrt2 - 382)]

theorem yMin_fdTall_neg : yMinOf fdTall < 0 := by
  have hmem : ((CY + (-1 : ℝ) * (calcDiag bTall / sqrt2)) - 80) ∈ scannedYs fdTall := by
    simp [scannedYs, slots, fdTall, mkGroups, placeGroups, relPlace, slotsOfGroup,
      slotYCands, bTall, mkBig]
  have h1 : yMinOf fdTall ≤ (CY + (-1 : ℝ) * (calcDiag bTall / sqrt2)) - 80 :=
    foldl_min_le_mem hmem _
  have h2 := dd_bTall_gt
  have hcy : CY = (350 : ℝ) := rfl
  linarith

/-- C4 witness: the shift statement at the one-bone tree fdOne for the
horizontal part (its scanned head candidate is the only element) and at
the tall tree fdTall for the vertical part. -/
theorem C4_shift_witness :
    (xMinOf fdOne < tailSafeRight ∧
      shiftX fdOne = tailSafeRight - xMinOf fdOne ∧
      xMinOf fdOne + shiftX fdOne = tailSafeRight) ∧
    ((((firstBoneX (mkGroups fdOne.bigBones) - 0) -
        calcDiag (mkBig 1 Pos.top []) / sqrt2) - 80) ∈ scannedXs fdOne ∧
      tailSafeRight ≤ (((firstBoneX (mkGroups fdOne.bigBones) - 0) -
        calcDiag (mkBig 1 Pos.top []) / sqrt2) - 80) + shiftX fdOne) ∧
    (yMinOf fdTall < 0 ∧ shiftY fdTall = -(yMinOf fdTall) + 40 ∧ 0 < shiftY fdTall) := by
  have hx : xMinOf fdOne < tailSafeRight := by
    have h1 : xMinOf fdOne ≤ PAD_L - 20 := foldl_min_le_init _ _
    have h2 : PAD_L - 20 < tailSafeRight := by
      norm_num [PAD_L, tailSafeRight, TAIL]
    linarith
  have hmem : (((firstBoneX (mkGroups fdOne.bigBones) - 0) -
      calcDiag (mkBig 1 Pos.top []) / sqrt2) - 80) ∈ scannedXs fdOne := by
    simp [scannedXs, slots, fdOne, mkGroups, placeGroups, relPlace, slotsOfGroup,
      slotXCands, midXCands]
  have hy := yMin_fdTall_neg
  exact ⟨⟨hx, (C4_shift fdOne).1 hx⟩,
    ⟨hmem, (C4_shift fdOne).2.1 _ hmem⟩,
    ⟨hy, (C4_shift fdTall).2.2 hy⟩⟩

/- ──────────────────────────────────────────────────────────────
   C2: horizontal slot intervals. -/

theorem relPlace_pairwise (gs : List Group) :
    ∀ cursor : ℝ,
      List.Pairwise (fun p q => p.2 + groupExt p.1 + 50 ≤ q.2) (relPlace cursor gs) := by
  induction gs with
  | nil => intro cursor; exact List.Pairwise.nil
  | cons g rest ih =>
      intro cursor
      refine List.Pairwise.cons ?_ (ih _)
      intro q hq
      have hrec := relPlace_snd_ge rest (cursor + rightHalf g + groupExt g + GROUP_GAP) q hq
      have hgg : GROUP_GAP = (30 : ℝ) := rfl
      show (cursor + rightHalf g) + groupExt g + 50 ≤ q.2
      linarith

theorem placeGroups_pairwise (gs : List Group) :
    List.Pairwise (fun p q => p.2 + groupExt p.1 + 50 ≤ q.2) (placeGroups gs) := by
  cases gs with
  | nil => exact List.Pairwise.nil
  | cons g rest =>
      refine List.Pairwise.cons ?_ (relPlace_pairwise rest _)
      intro q hq
      have hrec := relPlace_snd_ge rest (groupExt g + GROUP_GAP) q hq
      have hgg : GROUP_GAP = (30 : ℝ) := rfl
      show (0 : ℝ) + groupExt g + 50 ≤ q.2
      linarith

theorem slot_x_le (fx : ℝ) (p : Group × ℝ) :
    ∀ s ∈ slotsOfGroup fx p, s.x ≤ fx - p.2 := by
  intro s hs
  unfold slotsOfGroup at hs
  rcases List.mem_cons.mp hs with h | h
  · rw [h]
  · cases hb : p.1.2 with
    | none => rw [hb] at h; cases h
    | some bot =>
        rw [hb] at h
        simp only [Option.elim, List.mem_singleton] at h
        rw [h]
        have hpg : (0 : ℝ) ≤ PAIR_GAP := by norm_num [PAIR_GAP]
        show fx - p.2 - PAIR_GAP ≤ fx - p.2
        linarith

theorem slot_lo_ge (fx : ℝ) (p : Group × ℝ) :
    ∀ s ∈ slotsOfGroup fx p, fx - p.2 - groupExt p.1 ≤ s.x - boneLeftExtent s.b := by
  intro s hs
  unfold slotsOfGroup at hs
  rcases List.mem_cons.mp hs with h | h
  · rw [h]
    have h1 : boneLeftExtent p.1.1 ≤ groupExt p.1 := le_max_left _ _
    show fx - p.2 - groupExt p.1 ≤ (fx - p.2) - boneLeftExtent p.1.1
    linarith
  · cases hb : p.1.2 with
    | none => rw [hb] at h; cases h
    | some bot =>
        rw [hb] at h
        simp only [Option.elim, List.mem_singleton] at h
        rw [h]
        have h1 : boneLeftExtent bot + PAIR_GAP ≤ groupExt p.1 := by
          unfold groupExt
          rw [hb]
          simp only [Option.elim]
          exact le_max_right _ _
        show fx - p.2 - groupExt p.1 ≤ (fx - p.2 - PAIR_GAP) - boneLeftExtent bot
        linarith

/-- C2 (amended): slots of distinct pair-groups have disjoint horizontal
intervals [anchorX - boneLeftExtent, anchorX + 40]; the top and bottom
slots inside one pair-group are exempt (their intervals do overlap, the
pair being separated vertically instead). -/
theorem C2_groups_disjoint (fd : FishData) :
    List.Pairwise
      (fun p q => ∀ s ∈ slotsOfGroup (firstBoneX (mkGroups fd.bigBones)) p,
        ∀ t ∈ slotsOfGroup (firstBoneX (mkGroups fd.bigBones)) q,
          ¬ intervalsHit (s.x - boneLeftExtent s.b) (s.x + 40)
            (t.x - boneLeftExtent t.b) (t.x + 40))
      (placeGroups (mkGroups fd.bigBones)) := by
  refine (placeGroups_pairwise (mkGroups fd.bigBones)).imp ?_
  intro p q hpq s hs t ht hhit
  have h1 : s.x - boneLeftExtent s.b ≤ t.x + 40 :=
    le_trans (le_trans (le_max_left _ _) hhit) (min_le_right _ _)
  have h2 := slot_x_le (firstBoneX (mkGroups fd.bigBones)) q t ht
  have h3 := slot_lo_ge (firstBoneX (mkGroups fd.bigBones)) p s hs
  linarith

/-- C2 counterexample: in the two-big-bone tree fdPair the two slots of
the single pair-group have intersecting horizontal intervals (the bottom
anchor is only PAIR_GAP = 60 left of the top anchor while each left
extent exceeds 80), so the claim over every pair of distinct slots
fails. -/
theorem C2_counterexample :
    ¬ List.Pairwise
        (fun s t => ¬ intervalsHit (s.x - boneLeftExtent s.b) (s.x + 40)
          (t.x - boneLeftExtent t.b) (t.x + 40))
        (slots fdPair) := by
  intro hpw
  simp only [slots, fdPair, mkGroups, placeGroups, relPlace, slotsOfGroup,
    List.map_cons, List.map_nil, Option.elim, List.flatten, List.append_nil] at hpw
  rcases List.pairwise_cons.mp hpw with ⟨h1, _⟩
  have h12 := h1 _ (List.mem_cons_self _ _)
  apply h12
  dsimp only
  have e1 : (80 : ℝ) ≤ boneLeftExtent (mkBig 1 Pos.top []) := by
    have ha := boneLeftExtent_ge (mkBig 1 Pos.top [])
    have hc := dd_nonneg (mkBig 1 Pos.top [])
    linarith
  have e2 : (0 : ℝ) ≤ boneLeftExtent (mkBig 2 Pos.bottom []) :=
    boneLeftExtent_nonneg _
  have hpg : PAIR_GAP = (60 : ℝ) := rfl
  unfold intervalsHit
  refine max_le (le_min ?_ ?_) (le_min ?_ ?_) <;> linarith

end Fishbone
